import Mathlib

/-!
Verification of the attestation coordination logic of the Celo contractkit
Attestations wrapper (packages/sdk/contractkit/src/kit.ts, wrapper section).

Each TypeScript function is embedded as a pure Lean function.  External
collaborators (the chain client, HTTP fetches, the metadata fetcher, and the
signature utilities from other packages of the monorepo) are represented as
explicit environment records whose fields hold the responses the code would
observe; the control flow of the wrapper functions themselves is translated
branch for branch from the source.
-/

set_option maxHeartbeats 1000000

namespace CeloAttestations

/-! ## Security code digit (kit.ts lines 381-387) -/

/-- Embeds `hashAddressToSingleDigit`: the address is modelled by its numeric
value (`new BigNumber(address.toLowerCase())` parses the hex string), and the
function takes that value modulo 10. -/
def hashAddressToSingleDigit (address : Nat) : Nat :=
  address % 10

/-- Embeds the TypeScript template-literal conversion of the single digit to a
string. -/
def getSecurityCodePrefix (issuerAddress : Nat) : String :=
  toString (hashAddressToSingleDigit issuerAddress)

/-! ## waitForSelectingIssuers (kit.ts lines 518-541)

Time is modelled in milliseconds.  `blockAt t` is the chain height the
`getBlockNumber` call observes at time `t`; `sleep` advances time by the poll
duration.  The `while` loop is embedded with explicit fuel; `outOfFuel` is the
model artefact for running out of fuel, never reached in the theorems below. -/

structure UnselectedRequest where
  blockNumber : Nat
  attestationsRequested : Nat
  attestationRequestFeeToken : String

inductive WaitError
  | noUnselectedRequest
  | timeout
  | outOfFuel
deriving Repr, DecidableEq

/-- Outcome of the wait: the result, how many times the loop read the block
height (`polls`), and how many times it slept (`sleeps`). -/
structure WaitOutcome where
  result : Except WaitError Unit
  polls : Nat
  sleeps : Nat

structure WaitEnv where
  unselectedRequest : UnselectedRequest
  selectIssuersWaitBlocks : Nat
  blockAt : Nat → Nat

/-- The polling `while` loop of `waitForSelectingIssuers`: while
`Date.now() - startTime < timeoutSeconds * 1000`, read the block height,
return if it reached the required block, else sleep `pollDurationSeconds`;
afterwards throw the timeout error. -/
def waitLoop (blockAt : Nat → Nat) (required startTime timeoutMs pollMs : Nat) :
    Nat → Nat → WaitOutcome
  | 0, now =>
    if now - startTime < timeoutMs then
      if required ≤ blockAt now then ⟨.ok (), 1, 0⟩
      else ⟨.error .outOfFuel, 1, 1⟩
    else ⟨.error .timeout, 0, 0⟩
  | fuel + 1, now =>
    if now - startTime < timeoutMs then
      if required ≤ blockAt now then ⟨.ok (), 1, 0⟩
      else
        let rest := waitLoop blockAt required startTime timeoutMs pollMs fuel (now + pollMs)
        ⟨rest.result, rest.polls + 1, rest.sleeps + 1⟩
    else ⟨.error .timeout, 0, 0⟩

/-- Embeds `waitForSelectingIssuers`.  The function first reads the
unselected request and the wait-blocks parameter; if the pending block
number is 0 it throws at once, otherwise it enters the polling loop at
`startTime`. -/
def waitForSelectingIssuers (env : WaitEnv) (startTime : Nat)
    (timeoutSeconds pollDurationSeconds fuel : Nat) : WaitOutcome :=
  if env.unselectedRequest.blockNumber = 0 then
    ⟨.error .noUnselectedRequest, 0, 0⟩
  else
    waitLoop env.blockAt (env.unselectedRequest.blockNumber + env.selectIssuersWaitBlocks)
      startTime (timeoutSeconds * 1000) (pollDurationSeconds * 1000) fuel startTime

/-! ## getAttestationServiceStatus (kit.ts lines 1041-1166)

The chain reads (`hasAuthorizedAttestationSigner`, `getAttestationSigner`,
`getMetadataURL`), the metadata fetch and the two HTTP endpoints are modelled
by an environment record; HTTP fetches are keyed by the URL the code builds.
The TypeScript `error` and `blacklistedRegionCodes` response fields (an
`Error` object and a constant) are not modelled. -/

structure Validator where
  address : String
  name : String

/-- Classification of a metadata-fetch failure, mirroring the
`error.type` test (system versus content failure) of the source. -/
inductive MetadataErrorType
  | system
  | other
deriving Repr, DecidableEq

structure UrlClaim where
  url : String
deriving Repr, DecidableEq

/-- The two `findClaim` lookups the wrapper performs on fetched identity
metadata: the attestation-service-URL claim and the name claim. -/
structure IdentityMetadata where
  attestationServiceURLClaim : Option UrlClaim
  nameClaim : Option String
deriving Repr, DecidableEq

/-- JSON body of the `/status` endpoint (§6 of the service API). `none`
models an absent / null / undefined JSON field. -/
structure StatusResponseBody where
  status : String
  version : Option String
  accountAddress : String
  smsProviders : List String
  ageOfLatestBlock : Option Int
  isNodeSyncing : Option Bool
  smsProvidersRandomized : Option Bool
  maxDeliveryAttempts : Option Nat
  maxRerequestMins : Option Nat
  twilioVerifySidProvided : Option Bool
deriving Repr, DecidableEq

structure HealthzBody where
  error : Option String
deriving Repr, DecidableEq

/-- Result of `fetch(...status)` when the fetch itself did not throw:
the HTTP ok flag and the outcome of parsing the JSON body. -/
structure StatusFetchResult where
  ok : Bool
  body : Except Unit StatusResponseBody

/-- Result of fetching `/healthz` and parsing its JSON; the surrounding
`Except` in the environment is the fetch-or-parse throw. -/
structure HealthzFetchResult where
  ok : Bool
  body : HealthzBody

structure StatusProbeEnv where
  hasAttestationSigner : Bool
  attestationSigner : String
  metadataURL : String
  metadataFetch : Except MetadataErrorType IdentityMetadata
  statusFetch : String → Except Unit StatusFetchResult
  healthzFetch : String → Except Unit HealthzFetchResult

inductive AttestationServiceStatusState
  | NoAttestationSigner
  | NoMetadataURL
  | InvalidMetadata
  | NoAttestationServiceURL
  | InvalidAttestationServiceURL
  | UnreachableAttestationService
  | Valid
  | UnreachableHealthz
  | Unhealthy
  | WrongAccount
  | MetadataTimeout
deriving Repr, DecidableEq

structure AttestationServiceStatusResponse where
  name : String
  address : String
  hasAttestationSigner : Bool
  attestationSigner : String
  attestationServiceURL : Option String
  metadataURL : Option String
  okStatus : Bool
  smsProviders : List String
  rightAccount : Bool
  state : AttestationServiceStatusState
  version : Option String
  ageOfLatestBlock : Option Int
  smsProvidersRandomized : Option Bool
  maxDeliveryAttempts : Option Nat
  maxRerequestMins : Option Nat
  twilioVerifySidProvided : Option Bool

/-- Character-list version of `s.startsWith(pre)` (kernel-reducible stand-in for
`String.startsWith`). -/
def stringStartsWith (s pre : String) : Bool :=
  pre.data.isPrefixOf s.data

/-- Character-list version of `s.endsWith(suf)`. -/
def stringEndsWith (s suf : String) : Bool :=
  suf.data.isSuffixOf s.data

/-- Modelled from the spec: `eqAddress` (packages/sdk/base, not under src/)
compares two addresses case-insensitively (lower-cased character lists). -/
def eqAddress (a b : String) : Bool :=
  a.data.map Char.toLower = b.data.map Char.toLower

/-- Modelled from the spec: `appendPath` (packages/sdk/base, not under src/)
joins a base URL and a path with exactly one slash. -/
def appendPath (base p : String) : String :=
  if stringEndsWith base "/" then base ++ p else base ++ "/" ++ p

/-- The full-node staleness / syncing test of the version branch:
`ageOfLatestBlock !== null && ageOfLatestBlock > 10 || isNodeSyncing === true`. -/
def staleOrSyncing (body : StatusResponseBody) : Bool :=
  (match body.ageOfLatestBlock with
   | some a => decide (10 < a)
   | none => false) || decide (body.isNodeSyncing = some true)

/-- Embeds `getAttestationServiceStatus`: the sequential classification of a
validator attestation service, translated branch for branch.  The version
guard of the source is a truthiness test, so an empty version string behaves
like an absent one: legacy version 1.0.0, no healthz probe, no override. -/
def getAttestationServiceStatus (env : StatusProbeEnv) (validator : Validator) :
    AttestationServiceStatusResponse :=
  let ret : AttestationServiceStatusResponse :=
    { name := validator.name
      address := validator.address
      hasAttestationSigner := env.hasAttestationSigner
      attestationSigner := env.attestationSigner
      attestationServiceURL := none
      metadataURL := none
      okStatus := false
      smsProviders := []
      rightAccount := false
      state := .NoAttestationSigner
      version := none
      ageOfLatestBlock := none
      smsProvidersRandomized := none
      maxDeliveryAttempts := none
      maxRerequestMins := none
      twilioVerifySidProvided := none }
  if env.hasAttestationSigner = false then ret
  else
    let ret := { ret with metadataURL := some env.metadataURL }
    if env.metadataURL = "" then { ret with state := .NoMetadataURL }
    else if stringStartsWith env.metadataURL "http://" then
      { ret with state := .InvalidAttestationServiceURL }
    else
      match env.metadataFetch with
      | .error .system => { ret with state := .MetadataTimeout }
      | .error .other => { ret with state := .InvalidMetadata }
      | .ok metadata =>
        match metadata.attestationServiceURLClaim with
        | none => { ret with state := .NoAttestationServiceURL }
        | some claim =>
          let ret := { ret with attestationServiceURL := some claim.url }
          match env.statusFetch (appendPath claim.url "status") with
          | .error _ => { ret with state := .UnreachableAttestationService }
          | .ok sfr =>
            if sfr.ok = false then { ret with state := .UnreachableAttestationService }
            else
              let ret := { ret with okStatus := true }
              match sfr.body with
              | .error _ => { ret with state := .UnreachableAttestationService }
              | .ok body =>
                let rightAccount := eqAddress validator.address body.accountAddress
                let ret := { ret with
                  smsProviders := body.smsProviders
                  rightAccount := rightAccount
                  state := if rightAccount then .Valid else .WrongAccount
                  ageOfLatestBlock := body.ageOfLatestBlock
                  smsProvidersRandomized := body.smsProvidersRandomized
                  maxDeliveryAttempts := body.maxDeliveryAttempts
                  maxRerequestMins := body.maxRerequestMins
                  twilioVerifySidProvided := body.twilioVerifySidProvided }
                match body.version with
                | some v =>
                  -- `if (statusResponseBody.version)` is a JavaScript
                  -- truthiness test: an empty version string is falsy and
                  -- takes the legacy branch below, like an absent field.
                  if v = "" then { ret with version := some "1.0.0" }
                  else
                    let ret := { ret with version := some v }
                    let ret :=
                      match env.healthzFetch (appendPath claim.url "healthz") with
                      | .error _ => { ret with state := .UnreachableHealthz }
                      | .ok h =>
                        if h.ok = false then { ret with state := .Unhealthy } else ret
                    if staleOrSyncing body then { ret with state := .Unhealthy } else ret
                | none => { ret with version := some "1.0.0" }

/-! ## getActionableAttestations / getNonCompliantIssuers
(kit.ts lines 441-458 and 629-718)

Both batch functions read the on-chain completable-attestations response,
decode it with `parseGetCompletableAttestations`, probe every candidate with
the classifier built by `makeIsIssuerRunningAttestationService`, and filter
one side of the resulting partition.  `concurrentMap 5` preserves input order
and evaluates each probe independently, so it is embedded as `List.map` with
a per-candidate probe environment. -/

structure CompletableAttestation where
  blockNumber : Nat
  issuer : String
  metadataURL : String
deriving Repr, DecidableEq

structure ActionableAttestation where
  issuer : String
  blockNumber : Nat
  attestationServiceURL : String
  name : Option String
  version : Option String
deriving Repr, DecidableEq

inductive AttestationServiceRunningCheckResult
  | valid (result : ActionableAttestation)
  | invalid (issuer : String)
deriving Repr, DecidableEq

/-- Raw `getCompletableAttestations` chain response: block numbers, issuers,
and the packed Solidity string array (one length per metadata URL plus the
concatenated character blob). -/
structure GetCompletableAttestationsResponse where
  blockNumbers : List Nat
  issuers : List String
  metadataURLLengths : List Nat
  metadataURLData : String

/-- Modelled from the spec: `parseSolidityStringArray` (packages/sdk/base,
not under src/) slices the concatenated blob sequentially by the declared
lengths, in array order. -/
def parseSolidityStringArray : List Nat → List Char → List String
  | [], _ => []
  | n :: ns, blob => String.mk (blob.take n) :: parseSolidityStringArray ns (blob.drop n)

/-- Truncating three-way zip, `zip3` from packages/sdk/base. -/
def zip3 {α β γ : Type} : List α → List β → List γ → List (α × β × γ)
  | a :: as, b :: bs, c :: cs => (a, b, c) :: zip3 as bs cs
  | _, _, _ => []

/-- Embeds `parseGetCompletableAttestations`: zips the block numbers, issuers
and decoded metadata URLs into candidate triples. -/
def parseGetCompletableAttestations (r : GetCompletableAttestationsResponse) :
    List CompletableAttestation :=
  (zip3 r.blockNumbers r.issuers
      (parseSolidityStringArray r.metadataURLLengths r.metadataURLData.data)).map
    (fun x => ⟨x.1, x.2.1, x.2.2⟩)

/-- What a single issuer probe can observe: the metadata fetch (with its
claims) and the status fetch keyed by the URL the code builds.  An `error`
value is a thrown exception at that step. -/
structure IssuerProbeEnv where
  metadataFetch : Except Unit IdentityMetadata
  statusFetch : String → Except Unit StatusFetchResult

/-- The status-endpoint URL built inline by the probe:
the service URL, a slash unless it already ends in one, then `status`. -/
def statusEndpointURL (url : String) : String :=
  url ++ (if stringEndsWith url "/" then "" else "/") ++ "status"

/-- Embeds the closure returned by `makeIsIssuerRunningAttestationService`:
every thrown step (metadata fetch, missing attestation-service-URL claim,
status fetch, non-2xx response, JSON parse) lands in the `catch` that returns
the invalid classification for this issuer; a parsed body whose `status`
field is not `"ok"` returns the same classification explicitly. -/
def makeIsIssuerRunningAttestationService (env : IssuerProbeEnv)
    (arg : CompletableAttestation) : AttestationServiceRunningCheckResult :=
  match env.metadataFetch with
  | .error _ => .invalid arg.issuer
  | .ok metadata =>
    match metadata.attestationServiceURLClaim with
    | none => .invalid arg.issuer
    | some claim =>
      match env.statusFetch (statusEndpointURL claim.url) with
      | .error _ => .invalid arg.issuer
      | .ok resp =>
        if resp.ok = false then .invalid arg.issuer
        else
          match resp.body with
          | .error _ => .invalid arg.issuer
          | .ok body =>
            if body.status ≠ "ok" then .invalid arg.issuer
            else .valid
              { issuer := arg.issuer
                blockNumber := arg.blockNumber
                attestationServiceURL := claim.url
                name := metadata.nameClaim
                version := body.version }

/-- Keep-valid projection, `_.isValid ? _.result : null` with `filter(notEmpty)`. -/
def checkToActionable : AttestationServiceRunningCheckResult → Option ActionableAttestation
  | .valid a => some a
  | .invalid _ => none

/-- Keep-invalid projection, `_.isValid ? null : _.issuer` with `filter(notEmpty)`. -/
def checkToNonCompliant : AttestationServiceRunningCheckResult → Option String
  | .valid _ => none
  | .invalid issuer => some issuer

/-- The issuer a classification is about, on either side. -/
def resultIssuer : AttestationServiceRunningCheckResult → String
  | .valid a => a.issuer
  | .invalid issuer => issuer

/-- Embeds `getActionableAttestations`: probe all candidates, keep the valid
results in input order. -/
def getActionableAttestations (envOf : CompletableAttestation → IssuerProbeEnv)
    (resp : GetCompletableAttestationsResponse) : List ActionableAttestation :=
  ((parseGetCompletableAttestations resp).map
      (fun c => makeIsIssuerRunningAttestationService (envOf c) c)).filterMap
    checkToActionable

/-- Embeds `getNonCompliantIssuers`: same probes, inverse filter. -/
def getNonCompliantIssuers (envOf : CompletableAttestation → IssuerProbeEnv)
    (resp : GetCompletableAttestationsResponse) : List String :=
  ((parseGetCompletableAttestations resp).map
      (fun c => makeIsIssuerRunningAttestationService (envOf c) c)).filterMap
    checkToNonCompliant

/-- The probe failure modes of C8: thrown metadata fetch, missing
attestation-service-URL claim, thrown status fetch, non-2xx status response,
or thrown JSON parse. -/
def probeFailed (env : IssuerProbeEnv) : Prop :=
  env.metadataFetch = .error () ∨
  (∃ m, env.metadataFetch = .ok m ∧
    (m.attestationServiceURLClaim = none ∨
     (∃ claim, m.attestationServiceURLClaim = some claim ∧
       (env.statusFetch (statusEndpointURL claim.url) = .error () ∨
        (∃ resp, env.statusFetch (statusEndpointURL claim.url) = .ok resp ∧
          (resp.ok = false ∨ resp.body = .error ()))))))

/-! ## complete (kit.ts lines 727-743) -/

/-- The recovered (v, r, s) components of a parsed signature code. -/
structure SigComponents where
  v : Nat
  r : String
  s : String
deriving Repr, DecidableEq

/-- Modelled from the spec: the canonical attestation message built by
`AttestationUtils.getAttestationMessageToSignFromIdentifier` (packages/sdk/utils,
not under src/) is derived from the identifier and the account. -/
structure AttestationMessage where
  identifier : String
  account : String
deriving Repr, DecidableEq

def getAttestationMessageToSignFromIdentifier (identifier account : String) :
    AttestationMessage :=
  ⟨identifier, account⟩

/-- Collaborators of `complete`: the Accounts contract attestation-signer
lookup, and ECDSA recovery over a message and code — `recoverSigner` yields
the signer a well-formed code recovers to, together with its (v, r, s)
components, or `none` for a malformed code. -/
structure CompleteEnv where
  getAttestationSigner : String → String
  recoverSigner : AttestationMessage → String → Option (String × SigComponents)

/-- Modelled from the spec: `SignatureUtils.parseSignature` (packages/sdk/utils,
not under src/) recovers the signer of `code` over `message` and throws unless
the code is well formed and the recovered signer is the expected one; so it
yields the components exactly when `code` is a valid signature over `message`
by `expectedSigner`. -/
def parseSignature (env : CompleteEnv) (message : AttestationMessage)
    (code expectedSigner : String) : Option SigComponents :=
  match env.recoverSigner message code with
  | none => none
  | some (signer, sig) => if signer = expectedSigner then some sig else none

inductive CompleteError
  | verificationFailure
deriving Repr, DecidableEq

/-- The transaction object `complete` hands back:
`contract.methods.complete(identifier, v, r, s)`. -/
structure CompleteTx where
  identifier : String
  v : Nat
  r : String
  s : String
deriving Repr, DecidableEq

/-- Embeds `complete`: resolve the attestation signer of the issuer, rebuild the
expected message from (identifier, account), parse the code against the
resolved signer (a throw becomes the verification error), and return the
completion transaction carrying the recovered components. -/
def complete (env : CompleteEnv) (identifier account issuer code : String) :
    Except CompleteError CompleteTx :=
  let attestationSigner := env.getAttestationSigner issuer
  let expectedSourceMessage := getAttestationMessageToSignFromIdentifier identifier account
  match parseSignature env expectedSourceMessage code attestationSigner with
  | some sig => .ok ⟨identifier, sig.v, sig.r, sig.s⟩
  | none => .error .verificationFailure

/-! ## lookupIdentifiers (kit.ts lines 834-868)

The four parallel arrays of `batchGetAttestationStats` are decoded with a
single running cursor (`rIndex`).  JavaScript objects are modelled as
association lists with assignment (`recSet`) keeping the first insertion
position and overwriting the value, lookup (`recGet`) returning the entry if
present.  Out-of-range flat-array reads (impossible for a well-formed chain
response, where the match counts sum to the flat lengths) stop the group
build. -/

structure AttestationStat where
  completed : Nat
  total : Nat
deriving Repr, DecidableEq

/-- JavaScript object assignment `obj[k] = v` on an association list. -/
def recSet {α : Type} (k : String) (v : α) : List (String × α) → List (String × α)
  | [] => [(k, v)]
  | (k2, v2) :: rest => if k2 = k then (k2, v) :: rest else (k2, v2) :: recSet k v rest

/-- JavaScript object read `obj[k]` on an association list. -/
def recGet {α : Type} (k : String) : List (String × α) → Option α
  | [] => none
  | (k2, v2) :: rest => if k2 = k then some v2 else recGet k rest

/-- The keys of an association list, in insertion order. -/
def recKeys {α : Type} (l : List (String × α)) : List String :=
  l.map Prod.fst

/-- The inner `mIndex` loop: assign `matchingAddresses[addresses[rIndex]] =
{completed[rIndex], total[rIndex]}` for the `numberOfMatches` entries of the
current identifier, consuming the flat arrays from the front (the cursor). -/
def buildGroup : Nat → List String → List Nat → List Nat →
    List (String × AttestationStat) → List (String × AttestationStat)
  | 0, _, _, _, acc => acc
  | n + 1, a :: as, c :: cs, t :: ts, acc => buildGroup n as cs ts (recSet a ⟨c, t⟩ acc)
  | _ + 1, _, _, _, acc => acc

/-- The outer `pIndex` loop: an identifier with zero matches is skipped
(`continue`), otherwise its group is built from the cursor position and the
cursor advances by the match count. -/
def lookupIdentifiersGo : List String → List Nat → List String → List Nat → List Nat →
    List (String × List (String × AttestationStat)) →
    List (String × List (String × AttestationStat))
  | [], _, _, _, _, acc => acc
  | _ :: _, [], _, _, _, acc => acc
  | pHash :: ids, n :: ms, addrs, comps, tots, acc =>
    if n = 0 then lookupIdentifiersGo ids ms addrs comps tots acc
    else lookupIdentifiersGo ids ms (addrs.drop n) (comps.drop n) (tots.drop n)
      (recSet pHash (buildGroup n addrs comps tots []) acc)

/-- Embeds `lookupIdentifiers`, after the `valueToInt` conversions of the
`batchGetAttestationStats` response: identifiers, match counts, and the flat
addresses / completed / total arrays. -/
def lookupIdentifiers (identifiers : List String) (matchCounts : List Nat)
    (addresses : List String) (completed total : List Nat) :
    List (String × List (String × AttestationStat)) :=
  lookupIdentifiersGo identifiers matchCounts addresses completed total []

/-- The expected group for one identifier: the length-`n` slices of the three
flat arrays at the cursor, zipped into per-address stats. -/
def zipStats (n : Nat) (addrs : List String) (comps tots : List Nat) :
    List (String × AttestationStat) :=
  (zip3 (addrs.take n) (comps.take n) (tots.take n)).map
    (fun x => (x.1, ⟨x.2.1, x.2.2⟩))

/-! ## Theorems -/

/-- Single-digit decimal representations have length one and consist of a
digit character. -/
theorem reprDigit_length_isDigit :
    ∀ d : Nat, d < 10 →
      (Nat.repr d).length = 1 ∧ ∀ ch ∈ (Nat.repr d).toList, ch.isDigit = true := by
  intro d hd
  interval_cases d <;> exact ⟨rfl, by decide⟩

/-- C10: for every issuer address, `getSecurityCodePrefix` returns a
one-character string consisting of a decimal digit, namely the decimal
representation of the numeric address value modulo 10. -/
theorem getSecurityCodePrefix_single_digit (a : Nat) :
    ( getSecurityCodePrefix a).length = 1 ∧
    (∀ ch ∈ ( getSecurityCodePrefix a).toList, ch.isDigit = true) ∧
    getSecurityCodePrefix a = Nat.repr (a % 10) := by
  have h10 : a % 10 < 10 := Nat.mod_lt _ (by norm_num)
  have h := reprDigit_length_isDigit (a % 10) h10
  exact ⟨h.1, h.2, rfl⟩

/-- Witness for C10 at a concrete address value. -/
theorem getSecurityCodePrefix_single_digit_witness :
    ( getSecurityCodePrefix 1234567).length = 1 ∧
    getSecurityCodePrefix 1234567 = Nat.repr 7 :=
  ⟨(getSecurityCodePrefix_single_digit 1234567).1,
   (getSecurityCodePrefix_single_digit 1234567).2.2⟩

/-- C3: if the on-chain `UnselectedRequest` has `blockNumber = 0`,
`waitForSelectingIssuers` fails immediately with the no-pending-request error
and never reads the block height (zero polls, zero sleeps). -/
theorem waitForSelectingIssuers_noRequest (env : WaitEnv)
    (startTime timeoutSeconds pollDurationSeconds fuel : Nat)
    (h : env.unselectedRequest.blockNumber = 0) :
    waitForSelectingIssuers env startTime timeoutSeconds pollDurationSeconds fuel =
      ⟨.error .noUnselectedRequest, 0, 0⟩ := by
  simp [waitForSelectingIssuers, h]

/-- Witness for C3 at a concrete environment. -/
theorem waitForSelectingIssuers_noRequest_witness :
    waitForSelectingIssuers ⟨⟨0, 3, "cUSD"⟩, 2, fun _ => 100⟩ 0 120 1 5 =
      ⟨.error .noUnselectedRequest, 0, 0⟩ :=
  waitForSelectingIssuers_noRequest ⟨⟨0, 3, "cUSD"⟩, 2, fun _ => 100⟩ 0 120 1 5 rfl

/-- If the block height never reaches the required block, the loop ends with
the timeout error once the wall clock passes the budget. -/
theorem waitLoop_timeout (blockAt : Nat → Nat) (required startTime timeoutMs pollMs : Nat)
    (hb : ∀ t, blockAt t < required) (hp : 1 ≤ pollMs) :
    ∀ fuel now, startTime ≤ now → startTime + timeoutMs ≤ now + fuel →
      (waitLoop blockAt required startTime timeoutMs pollMs fuel now).result =
        .error .timeout := by
  intro fuel
  induction fuel with
  | zero =>
    intro now hnow hf
    have hout : ¬ now - startTime < timeoutMs := by omega
    simp [waitLoop, hout]
  | succ f ih =>
    intro now hnow hf
    by_cases hin : now - startTime < timeoutMs
    · have hblk : ¬ required ≤ blockAt now := by have := hb now; omega
      simp only [waitLoop, if_pos hin, if_neg hblk]
      exact ih (now + pollMs) (by omega) (by omega)
    · simp [waitLoop, hin]

/-- C4: with a pending request and required block
`r = unselectedRequest.blockNumber + selectIssuersWaitBlocks`:
if the chain height at the first poll already reaches `r` (and the timeout
budget is positive so a first poll happens), the call returns success after
exactly one poll and no sleep; if the height stays below `r` at every
instant, the call fails with the timeout error (given fuel covering the
timeout budget). -/
theorem waitForSelectingIssuers_first_poll_and_timeout (env : WaitEnv)
    (startTime timeoutSeconds pollDurationSeconds fuel : Nat)
    (h0 : env.unselectedRequest.blockNumber ≠ 0) :
    (1 ≤ timeoutSeconds →
      env.unselectedRequest.blockNumber + env.selectIssuersWaitBlocks ≤ env.blockAt startTime →
      waitForSelectingIssuers env startTime timeoutSeconds pollDurationSeconds fuel =
        ⟨.ok (), 1, 0⟩) ∧
    ((∀ t, env.blockAt t < env.unselectedRequest.blockNumber + env.selectIssuersWaitBlocks) →
      1 ≤ pollDurationSeconds → timeoutSeconds * 1000 ≤ fuel →
      (waitForSelectingIssuers env startTime timeoutSeconds pollDurationSeconds fuel).result =
        .error .timeout) := by
  constructor
  · intro hts hb
    cases fuel with
    | zero => simp [waitForSelectingIssuers, waitLoop, h0, hb]; omega
    | succ f => simp [waitForSelectingIssuers, waitLoop, h0, hb]; omega
  · intro hb hp hf
    simp only [waitForSelectingIssuers, if_neg h0]
    exact waitLoop_timeout env.blockAt _ startTime (timeoutSeconds * 1000)
      (pollDurationSeconds * 1000) hb (by omega) fuel startTime (le_refl _) (by omega)

/-- Witness for C4 at concrete environments: a chain already past the
required block returns at the first poll with no sleep, and a chain stuck
below it times out. -/
theorem waitForSelectingIssuers_first_poll_and_timeout_witness :
    (waitForSelectingIssuers ⟨⟨1, 3, "cUSD"⟩, 0, fun _ => 5⟩ 0 120 1 0 = ⟨.ok (), 1, 0⟩) ∧
    (waitForSelectingIssuers ⟨⟨1, 3, "cUSD"⟩, 0, fun _ => 0⟩ 0 1 1 1000).result =
      .error .timeout := by
  refine ⟨?_, ?_⟩
  · exact (waitForSelectingIssuers_first_poll_and_timeout ⟨⟨1, 3, "cUSD"⟩, 0, fun _ => 5⟩
      0 120 1 0 (by decide)).1 (by decide) (by decide)
  · exact (waitForSelectingIssuers_first_poll_and_timeout ⟨⟨1, 3, "cUSD"⟩, 0, fun _ => 0⟩
      0 1 1 1000 (by decide)).2 (fun _ => Nat.zero_lt_one) (by decide) (by decide)

/-- C5: the classification short-circuits at its first decision point: a
validator with no authorized attestation signer is always classified
`NoAttestationSigner`, whatever metadata URL, metadata, status or healthz
responses the rest of the environment would provide. -/
theorem getAttestationServiceStatus_noSigner (env : StatusProbeEnv) (validator : Validator)
    (h : env.hasAttestationSigner = false) :
    (getAttestationServiceStatus env validator).state = .NoAttestationSigner := by
  simp [getAttestationServiceStatus, h]

/-- Witness for C5: a validator without a signer but with a registered
metadata URL and a fully healthy live service is still `NoAttestationSigner`. -/
theorem getAttestationServiceStatus_noSigner_witness :
    (getAttestationServiceStatus
      ⟨false, "0xsigner", "https://metadata.celo.org/v",
        .ok ⟨some ⟨"https://svc.celo.org"⟩, some "V"⟩,
        fun _ => .ok ⟨true, .ok ⟨"ok", some "1.2.0", "0xv", ["twilio"], some 1, some false,
          some false, some 3, some 30, some true⟩⟩,
        fun _ => .ok ⟨true, ⟨none⟩⟩⟩
      ⟨"0xv", "V"⟩).state = .NoAttestationSigner :=
  getAttestationServiceStatus_noSigner _ _ rfl

/-- C6 (amended): in the version branch, the staleness / syncing override
applies after the healthz probe regardless of its outcome: whenever the
status body declares a nonempty version (the truthy case of the version
guard) and reports `ageOfLatestBlock > 10` or a syncing node, the final
state is `Unhealthy` — for every healthz environment, so it overrides a
`Valid` state from a healthy healthz as well as a prior `UnreachableHealthz`.
An empty version string is falsy: the source then takes the legacy
no-version branch and no override applies (see the counterexample). -/
theorem getAttestationServiceStatus_stalenessOverride (env : StatusProbeEnv)
    (validator : Validator) (metadata : IdentityMetadata) (claim : UrlClaim)
    (sfr : StatusFetchResult) (body : StatusResponseBody) (v : String)
    (h1 : env.hasAttestationSigner = true)
    (h2 : env.metadataURL ≠ "")
    (h3 : stringStartsWith env.metadataURL "http://" = false)
    (h4 : env.metadataFetch = .ok metadata)
    (h5 : metadata.attestationServiceURLClaim = some claim)
    (h6 : env.statusFetch (appendPath claim.url "status") = .ok sfr)
    (h7 : sfr.ok = true)
    (h8 : sfr.body = .ok body)
    (h9 : body.version = some v)
    (hv : v ≠ "")
    (h10 : (∃ a, body.ageOfLatestBlock = some a ∧ 10 < a) ∨ body.isNodeSyncing = some true) :
    (getAttestationServiceStatus env validator).state = .Unhealthy := by
  have hcond : staleOrSyncing body = true := by
    rcases h10 with ⟨a, ha, hgt⟩ | hs
    · simp [staleOrSyncing, ha, hgt]
    · simp [staleOrSyncing, hs]
  cases henv : env.healthzFetch (appendPath claim.url "healthz") with
  | error e =>
    simp [getAttestationServiceStatus, h1, h2, h3, h4, h5, h6, h7, h8, h9, hv, hcond, henv]
  | ok h =>
    cases hok : h.ok <;>
      simp [getAttestationServiceStatus, h1, h2, h3, h4, h5, h6, h7, h8, h9, hv, hcond,
        henv, hok]

/-- Witness for C6, the example scenario of the spec: `ageOfLatestBlock = 20` with
a healthy (200) healthz response still classifies as `Unhealthy`. -/
theorem getAttestationServiceStatus_stalenessOverride_witness :
    (getAttestationServiceStatus
      ⟨true, "0xsigner", "https://metadata.celo.org/v",
        .ok ⟨some ⟨"https://svc.celo.org"⟩, some "V"⟩,
        fun _ => .ok ⟨true, .ok ⟨"ok", some "1.2.0", "0xv", ["twilio"], some 20, some false,
          some false, some 3, some 30, some true⟩⟩,
        fun _ => .ok ⟨true, ⟨none⟩⟩⟩
      ⟨"0xv", "V"⟩).state = .Unhealthy :=
  getAttestationServiceStatus_stalenessOverride _ _
    ⟨some ⟨"https://svc.celo.org"⟩, some "V"⟩ ⟨"https://svc.celo.org"⟩
    ⟨true, .ok ⟨"ok", some "1.2.0", "0xv", ["twilio"], some 20, some false,
      some false, some 3, some 30, some true⟩⟩
    ⟨"ok", some "1.2.0", "0xv", ["twilio"], some 20, some false,
      some false, some 3, some 30, some true⟩
    "1.2.0" rfl (by decide) (by decide) rfl rfl rfl rfl rfl rfl (by decide)
    (Or.inl ⟨20, rfl, by decide⟩)

/-- Counterexample to C6 as stated: a status body that declares the (falsy)
empty version string while reporting `ageOfLatestBlock = 20`, with a healthy
healthz endpoint, takes the legacy branch of the source: the reported version
becomes 1.0.0 and the final state is not `Unhealthy`, although a version is
declared and the staleness condition holds. -/
theorem getAttestationServiceStatus_stalenessOverride_counterexample :
    (getAttestationServiceStatus
      ⟨true, "0xsigner", "https://metadata.celo.org/v",
        .ok ⟨some ⟨"https://svc.celo.org"⟩, some "V"⟩,
        fun _ => .ok ⟨true, .ok ⟨"ok", some "", "0xv", ["twilio"], some 20, some false,
          some false, some 3, some 30, some true⟩⟩,
        fun _ => .ok ⟨true, ⟨none⟩⟩⟩
      ⟨"0xv", "V"⟩).state ≠ .Unhealthy ∧
    (getAttestationServiceStatus
      ⟨true, "0xsigner", "https://metadata.celo.org/v",
        .ok ⟨some ⟨"https://svc.celo.org"⟩, some "V"⟩,
        fun _ => .ok ⟨true, .ok ⟨"ok", some "", "0xv", ["twilio"], some 20, some false,
          some false, some 3, some 30, some true⟩⟩,
        fun _ => .ok ⟨true, ⟨none⟩⟩⟩
      ⟨"0xv", "V"⟩).version = some "1.0.0" := by
  constructor
  · decide
  · decide

/-- The classification of a candidate is always about the issuer of that
candidate, on whichever side it lands. -/
theorem resultIssuer_check (env : IssuerProbeEnv) (arg : CompletableAttestation) :
    resultIssuer (makeIsIssuerRunningAttestationService env arg) = arg.issuer := by
  obtain ⟨mf, sf⟩ := env
  cases mf with
  | error e => simp [makeIsIssuerRunningAttestationService, resultIssuer]
  | ok metadata =>
    obtain ⟨urlClaim, nameClaim⟩ := metadata
    cases urlClaim with
    | none => simp [makeIsIssuerRunningAttestationService, resultIssuer]
    | some claim =>
      cases hsf : sf (statusEndpointURL claim.url) with
      | error e => simp [makeIsIssuerRunningAttestationService, resultIssuer, hsf]
      | ok resp =>
        obtain ⟨rok, rbody⟩ := resp
        cases rok with
        | false => simp [makeIsIssuerRunningAttestationService, resultIssuer, hsf]
        | true =>
          cases rbody with
          | error e => simp [makeIsIssuerRunningAttestationService, resultIssuer, hsf]
          | ok b =>
            by_cases hst : b.status = "ok" <;>
              simp [makeIsIssuerRunningAttestationService, resultIssuer, hsf, hst]

/-- Splitting a classification list into its valid issuers and its invalid
issuers is a permutation of all its issuers. -/
theorem filterMap_partition_perm (rs : List AttestationServiceRunningCheckResult) :
    ((rs.filterMap checkToActionable).map ActionableAttestation.issuer ++
      rs.filterMap checkToNonCompliant).Perm (rs.map resultIssuer) := by
  induction rs with
  | nil => simp
  | cons r rest ih =>
    cases r with
    | valid a =>
      simpa [checkToActionable, checkToNonCompliant, resultIssuer] using ih.cons a.issuer
    | invalid i =>
      simp only [List.filterMap_cons, checkToActionable, checkToNonCompliant, resultIssuer,
        List.map_cons]
      exact List.perm_middle.trans (ih.cons i)

/-- The issuers of the probe results over a candidate list are exactly the
candidate issuers, in order. -/
theorem checkMap_issuers (envOf : CompletableAttestation → IssuerProbeEnv)
    (cands : List CompletableAttestation) :
    ((cands.map (fun c => makeIsIssuerRunningAttestationService (envOf c) c)).map
        resultIssuer) = cands.map CompletableAttestation.issuer := by
  rw [List.map_map]
  exact List.map_congr_left (fun c _ => resultIssuer_check (envOf c) c)

/-- The two batch results together are a permutation of the candidate
issuers. -/
theorem actionable_nonCompliant_perm (envOf : CompletableAttestation → IssuerProbeEnv)
    (resp : GetCompletableAttestationsResponse) :
    ((getActionableAttestations envOf resp).map ActionableAttestation.issuer ++
        getNonCompliantIssuers envOf resp).Perm
      ((parseGetCompletableAttestations resp).map CompletableAttestation.issuer) := by
  have hperm := filterMap_partition_perm
    ((parseGetCompletableAttestations resp).map
      (fun c => makeIsIssuerRunningAttestationService (envOf c) c))
  rw [checkMap_issuers] at hperm
  exact hperm

/-- For a duplicate-free candidate issuer set, the two batch results are
disjoint. -/
theorem actionable_nonCompliant_disjoint (envOf : CompletableAttestation → IssuerProbeEnv)
    (resp : GetCompletableAttestationsResponse)
    (hnd : ((parseGetCompletableAttestations resp).map CompletableAttestation.issuer).Nodup) :
    ∀ x ∈ (getActionableAttestations envOf resp).map ActionableAttestation.issuer,
      x ∉ getNonCompliantIssuers envOf resp := by
  intro x hxA hxN
  have hnd2 := (actionable_nonCompliant_perm envOf resp).symm.nodup hnd
  rcases List.nodup_append.mp hnd2 with ⟨-, -, hdisj⟩
  exact hdisj hxA hxN

/-- C1: over the candidate set of the completable-attestations read, both
batch functions apply the same classification, so the issuers of
`getActionableAttestations` together with `getNonCompliantIssuers` are a
permutation of all candidate issuers, and (for a duplicate-free candidate
set) the two are disjoint. -/
theorem getActionable_nonCompliant_partition
    (envOf : CompletableAttestation → IssuerProbeEnv)
    (resp : GetCompletableAttestationsResponse) :
    ((getActionableAttestations envOf resp).map ActionableAttestation.issuer ++
        getNonCompliantIssuers envOf resp).Perm
      ((parseGetCompletableAttestations resp).map CompletableAttestation.issuer) ∧
    (((parseGetCompletableAttestations resp).map CompletableAttestation.issuer).Nodup →
      ∀ x ∈ (getActionableAttestations envOf resp).map ActionableAttestation.issuer,
        x ∉ getNonCompliantIssuers envOf resp) :=
  ⟨actionable_nonCompliant_perm envOf resp, actionable_nonCompliant_disjoint envOf resp⟩

/-- Witness for C1 at a concrete two-candidate response where one probe
succeeds and the other throws. -/
theorem getActionable_nonCompliant_partition_witness :
    (((getActionableAttestations
        (fun c => if c.issuer = "0xA"
          then ⟨.ok ⟨some ⟨"https://svc"⟩, some "A"⟩,
                fun _ => .ok ⟨true, .ok ⟨"ok", some "1.2.0", "0xA", [], some 1, some false,
                  none, none, none, none⟩⟩⟩
          else ⟨.error (), fun _ => .error ()⟩)
        ⟨[10, 11], ["0xA", "0xB"], [5, 5], "url-aurl-b"⟩).map ActionableAttestation.issuer ++
      getNonCompliantIssuers
        (fun c => if c.issuer = "0xA"
          then ⟨.ok ⟨some ⟨"https://svc"⟩, some "A"⟩,
                fun _ => .ok ⟨true, .ok ⟨"ok", some "1.2.0", "0xA", [], some 1, some false,
                  none, none, none, none⟩⟩⟩
          else ⟨.error (), fun _ => .error ()⟩)
        ⟨[10, 11], ["0xA", "0xB"], [5, 5], "url-aurl-b"⟩).Perm
      ((parseGetCompletableAttestations
        ⟨[10, 11], ["0xA", "0xB"], [5, 5], "url-aurl-b"⟩).map
          CompletableAttestation.issuer)) ∧
    "0xA" ∉ getNonCompliantIssuers
        (fun c => if c.issuer = "0xA"
          then ⟨.ok ⟨some ⟨"https://svc"⟩, some "A"⟩,
                fun _ => .ok ⟨true, .ok ⟨"ok", some "1.2.0", "0xA", [], some 1, some false,
                  none, none, none, none⟩⟩⟩
          else ⟨.error (), fun _ => .error ()⟩)
        ⟨[10, 11], ["0xA", "0xB"], [5, 5], "url-aurl-b"⟩ := by
  refine ⟨(getActionable_nonCompliant_partition _ _).1, ?_⟩
  exact (getActionable_nonCompliant_partition _ _).2 (by decide) "0xA" (by decide)

/-- C8: every enumerated probe failure is downgraded to the invalid
classification for that issuer alone, and the batch calls still classify
every candidate (no exception escapes: the two result lists always account
for the whole candidate list). -/
theorem probeFailures_downgraded :
    (∀ (env : IssuerProbeEnv) (arg : CompletableAttestation), probeFailed env →
      makeIsIssuerRunningAttestationService env arg = .invalid arg.issuer) ∧
    (∀ (envOf : CompletableAttestation → IssuerProbeEnv)
        (resp : GetCompletableAttestationsResponse),
      (getActionableAttestations envOf resp).length +
          (getNonCompliantIssuers envOf resp).length =
        (parseGetCompletableAttestations resp).length) := by
  constructor
  · intro env arg h
    rcases h with h | ⟨m, hm, h⟩
    · simp [makeIsIssuerRunningAttestationService, h]
    · rcases h with h | ⟨claim, hc, h⟩
      · simp [makeIsIssuerRunningAttestationService, hm, h]
      · rcases h with h | ⟨resp, hr, h⟩
        · simp [makeIsIssuerRunningAttestationService, hm, hc, h]
        · rcases h with h | h
          · simp [makeIsIssuerRunningAttestationService, hm, hc, hr, h]
          · cases hok : resp.ok <;>
              simp [makeIsIssuerRunningAttestationService, hm, hc, hr, h, hok]
  · intro envOf resp
    have hlen := (actionable_nonCompliant_perm envOf resp).length_eq
    simpa using hlen

/-- Witness for C8: a probe whose metadata fetch throws classifies its own
issuer invalid, and the batch over that candidate still has full length. -/
theorem probeFailures_downgraded_witness :
    makeIsIssuerRunningAttestationService ⟨.error (), fun _ => .error ()⟩ ⟨10, "0xA", "m"⟩ =
      .invalid "0xA" ∧
    (getActionableAttestations (fun _ => ⟨.error (), fun _ => .error ()⟩)
        ⟨[10], ["0xA"], [1], "u"⟩).length +
      (getNonCompliantIssuers (fun _ => ⟨.error (), fun _ => .error ()⟩)
        ⟨[10], ["0xA"], [1], "u"⟩).length =
      (parseGetCompletableAttestations ⟨[10], ["0xA"], [1], "u"⟩).length :=
  ⟨probeFailures_downgraded.1 ⟨.error (), fun _ => .error ()⟩ ⟨10, "0xA", "m"⟩ (Or.inl rfl),
   probeFailures_downgraded.2 (fun _ => ⟨.error (), fun _ => .error ()⟩)
     ⟨[10], ["0xA"], [1], "u"⟩⟩

/-- C9: a candidate whose status endpoint answers 2xx with a JSON body whose
`status` field is not `"ok"` is classified invalid: it is returned by
`getNonCompliantIssuers` and (for a duplicate-free candidate set) excluded
from `getActionableAttestations`, with no error raised. -/
theorem statusNotOk_invalid (envOf : CompletableAttestation → IssuerProbeEnv)
    (resp : GetCompletableAttestationsResponse) (c : CompletableAttestation)
    (m : IdentityMetadata) (claim : UrlClaim) (sfr : StatusFetchResult)
    (body : StatusResponseBody)
    (hc : c ∈ parseGetCompletableAttestations resp)
    (h1 : (envOf c).metadataFetch = .ok m)
    (h2 : m.attestationServiceURLClaim = some claim)
    (h3 : (envOf c).statusFetch (statusEndpointURL claim.url) = .ok sfr)
    (h4 : sfr.ok = true)
    (h5 : sfr.body = .ok body)
    (h6 : body.status ≠ "ok") :
    makeIsIssuerRunningAttestationService (envOf c) c = .invalid c.issuer ∧
    c.issuer ∈ getNonCompliantIssuers envOf resp ∧
    (((parseGetCompletableAttestations resp).map CompletableAttestation.issuer).Nodup →
      c.issuer ∉ (getActionableAttestations envOf resp).map ActionableAttestation.issuer) := by
  have hinv : makeIsIssuerRunningAttestationService (envOf c) c = .invalid c.issuer := by
    simp [makeIsIssuerRunningAttestationService, h1, h2, h3, h4, h5, h6]
  have hN : c.issuer ∈ getNonCompliantIssuers envOf resp := by
    refine List.mem_filterMap.mpr
      ⟨makeIsIssuerRunningAttestationService (envOf c) c, List.mem_map_of_mem _ hc, ?_⟩
    simp [hinv, checkToNonCompliant]
  refine ⟨hinv, hN, fun hnd hmem => ?_⟩
  exact actionable_nonCompliant_disjoint envOf resp hnd c.issuer hmem hN

/-- Witness for C9: a service answering 200 with body `{status: "error"}`
makes its issuer non-compliant and not actionable. -/
theorem statusNotOk_invalid_witness :
    makeIsIssuerRunningAttestationService
      ⟨.ok ⟨some ⟨"https://svc"⟩, none⟩,
        fun _ => .ok ⟨true, .ok ⟨"error", some "1.2.0", "0xA", [], some 1, some false,
          none, none, none, none⟩⟩⟩ ⟨10, "0xA", "u"⟩ = .invalid "0xA" ∧
    "0xA" ∈ getNonCompliantIssuers
      (fun _ => ⟨.ok ⟨some ⟨"https://svc"⟩, none⟩,
        fun _ => .ok ⟨true, .ok ⟨"error", some "1.2.0", "0xA", [], some 1, some false,
          none, none, none, none⟩⟩⟩)
      ⟨[10], ["0xA"], [1], "u"⟩ ∧
    "0xA" ∉ (getActionableAttestations
      (fun _ => ⟨.ok ⟨some ⟨"https://svc"⟩, none⟩,
        fun _ => .ok ⟨true, .ok ⟨"error", some "1.2.0", "0xA", [], some 1, some false,
          none, none, none, none⟩⟩⟩)
      ⟨[10], ["0xA"], [1], "u"⟩).map ActionableAttestation.issuer := by
  have h := statusNotOk_invalid
    (fun _ => ⟨.ok ⟨some ⟨"https://svc"⟩, none⟩,
      fun _ => .ok ⟨true, .ok ⟨"error", some "1.2.0", "0xA", [], some 1, some false,
        none, none, none, none⟩⟩⟩)
    ⟨[10], ["0xA"], [1], "u"⟩ ⟨10, "0xA", "u"⟩
    ⟨some ⟨"https://svc"⟩, none⟩ ⟨"https://svc"⟩
    ⟨true, .ok ⟨"error", some "1.2.0", "0xA", [], some 1, some false, none, none, none, none⟩⟩
    ⟨"error", some "1.2.0", "0xA", [], some 1, some false, none, none, none, none⟩
    (by decide) rfl rfl rfl rfl rfl (by decide)
  exact ⟨h.1, h.2.1, h.2.2 (by decide)⟩

/-- C2: `complete` succeeds iff the code is a valid signature over the
canonical message derived from (identifier, account) by the resolved
attestation signer of the issuer; on success the returned completion
transaction carries the recovered (v, r, s) components, otherwise it fails
with the verification error. -/
theorem complete_iff_valid_signature (env : CompleteEnv)
    (identifier account issuer code : String) :
    ((∃ tx, complete env identifier account issuer code = .ok tx) ↔
      (parseSignature env (getAttestationMessageToSignFromIdentifier identifier account)
        code (env.getAttestationSigner issuer)).isSome = true) ∧
    (∀ sig, parseSignature env (getAttestationMessageToSignFromIdentifier identifier account)
        code (env.getAttestationSigner issuer) = some sig →
      complete env identifier account issuer code = .ok ⟨identifier, sig.v, sig.r, sig.s⟩) ∧
    (parseSignature env (getAttestationMessageToSignFromIdentifier identifier account)
        code (env.getAttestationSigner issuer) = none →
      complete env identifier account issuer code = .error .verificationFailure) := by
  refine ⟨?_, fun sig hsig => by simp [complete, hsig], fun hnone => by simp [complete, hnone]⟩
  constructor
  · rintro ⟨tx, htx⟩
    cases hp : parseSignature env (getAttestationMessageToSignFromIdentifier identifier account)
        code (env.getAttestationSigner issuer) with
    | none => simp [complete, hp] at htx
    | some sig => simp
  · intro hsome
    cases hp : parseSignature env (getAttestationMessageToSignFromIdentifier identifier account)
        code (env.getAttestationSigner issuer) with
    | none => simp [hp] at hsome
    | some sig => exact ⟨⟨identifier, sig.v, sig.r, sig.s⟩, by simp [complete, hp]⟩

/-- Witness for C2: a code recovering to the resolved signer yields the
completion transaction with the recovered components; a code recovering to a
different signer fails with the verification error. -/
theorem complete_iff_valid_signature_witness :
    complete
      ⟨fun _ => "0xsigner",
        fun _ code => if code = "good" then some ("0xsigner", ⟨27, "r0", "s0"⟩) else
          some ("0xother", ⟨28, "r1", "s1"⟩)⟩
      "id" "0xacct" "0xissuer" "good" = .ok ⟨"id", 27, "r0", "s0"⟩ ∧
    complete
      ⟨fun _ => "0xsigner",
        fun _ code => if code = "good" then some ("0xsigner", ⟨27, "r0", "s0"⟩) else
          some ("0xother", ⟨28, "r1", "s1"⟩)⟩
      "id" "0xacct" "0xissuer" "bad" = .error .verificationFailure := by
  refine ⟨?_, ?_⟩
  · exact (complete_iff_valid_signature _ "id" "0xacct" "0xissuer" "good").2.1
      ⟨27, "r0", "s0"⟩ (by decide)
  · exact (complete_iff_valid_signature _ "id" "0xacct" "0xissuer" "bad").2.2 (by decide)

/-- Assignment of a fresh key appends the entry. -/
theorem recSet_of_notMem {α : Type} (k : String) (v : α) (l : List (String × α))
    (h : k ∉ recKeys l) : recSet k v l = l ++ [(k, v)] := by
  induction l with
  | nil => rfl
  | cons e rest ih =>
    obtain ⟨k2, v2⟩ := e
    have hne : ¬ k2 = k := by
      intro he
      exact h (by simp [recKeys, he])
    simp only [recSet, if_neg hne, List.cons_append, List.cons.injEq, true_and]
    exact ih (fun hm => h (by simp [recKeys] at hm ⊢; exact Or.inr hm))

/-- Keys after an assignment are among the old keys plus the assigned key. -/
theorem recKeys_recSet {α : Type} (k : String) (v : α) (l : List (String × α)) :
    ∀ x ∈ recKeys (recSet k v l), x ∈ recKeys l ∨ x = k := by
  induction l with
  | nil => intro x hx; simp [recSet, recKeys] at hx; exact Or.inr hx
  | cons e rest ih =>
    obtain ⟨k2, v2⟩ := e
    intro x hx
    by_cases he : k2 = k
    · simp only [recSet, if_pos he, recKeys, List.map_cons, List.mem_cons] at hx
      rcases hx with hx | hx
      · exact Or.inl (by simp [recKeys, hx])
      · exact Or.inl (by simp only [recKeys, List.map_cons, List.mem_cons]; exact Or.inr hx)
    · simp only [recSet, if_neg he, recKeys, List.map_cons, List.mem_cons] at hx
      rcases hx with hx | hx
      · exact Or.inl (by simp [recKeys, hx])
      · rcases ih x hx with h | h
        · exact Or.inl (by simp [recKeys] at h ⊢; exact Or.inr h)
        · exact Or.inr h

/-- Lookup of a key that is not present yields nothing. -/
theorem recGet_of_notMem {α : Type} (k : String) (l : List (String × α))
    (h : k ∉ recKeys l) : recGet k l = none := by
  induction l with
  | nil => rfl
  | cons e rest ih =>
    obtain ⟨k2, v2⟩ := e
    have hne : ¬ k2 = k := by
      intro he
      exact h (by simp [recKeys, he])
    simp only [recGet, if_neg hne]
    exact ih (fun hm => h (by simp [recKeys] at hm ⊢; exact Or.inr hm))

/-- Lookup at the head entry. -/
theorem recGet_cons_self {α : Type} (k : String) (v : α) (l : List (String × α)) :
    recGet k ((k, v) :: l) = some v := by
  simp [recGet]

/-- Lookup skips a head entry with a different key. -/
theorem recGet_cons_ne {α : Type} (k k2 : String) (v : α) (l : List (String × α))
    (h : k2 ≠ k) : recGet k ((k2, v) :: l) = recGet k l := by
  simp [recGet, h]

theorem zip3_length {α β γ : Type} :
    ∀ (as : List α) (bs : List β) (cs : List γ),
      (zip3 as bs cs).length = min as.length (min bs.length cs.length) := by
  intro as
  induction as with
  | nil => intro bs cs; simp [zip3]
  | cons a as ih =>
    intro bs cs
    cases bs with
    | nil => simp [zip3]
    | cons b bs =>
      cases cs with
      | nil => simp [zip3]
      | cons c cs => simp [zip3, ih]; omega

theorem zipStats_length (n : Nat) (addrs : List String) (comps tots : List Nat)
    (ha : n ≤ addrs.length) (hc : n ≤ comps.length) (ht : n ≤ tots.length) :
    (zipStats n addrs comps tots).length = n := by
  simp [zipStats, zip3_length]
  omega

theorem zipStats_keys :
    ∀ (n : Nat) (addrs : List String) (comps tots : List Nat),
      n ≤ addrs.length → n ≤ comps.length → n ≤ tots.length →
      recKeys (zipStats n addrs comps tots) = addrs.take n := by
  intro n
  induction n with
  | zero => intro addrs comps tots _ _ _; simp [zipStats, zip3, recKeys]
  | succ m ih =>
    intro addrs comps tots ha hc ht
    cases addrs with
    | nil => simp at ha
    | cons a as =>
      cases comps with
      | nil => simp at hc
      | cons c cs =>
        cases tots with
        | nil => simp at ht
        | cons t ts =>
          simp only [zipStats, List.take_succ_cons, zip3, List.map_cons, recKeys] at *
          simp only [List.map_cons, List.cons.injEq, true_and]
          have := ih as cs ts (by simp at ha; omega) (by simp at hc; omega)
            (by simp at ht; omega)
          simpa [zipStats, recKeys] using this

/-- Unfolding of `zipStats` on a cons step. -/
theorem zipStats_succ_cons (n : Nat) (a : String) (c t : Nat)
    (as : List String) (cs ts : List Nat) :
    zipStats (n + 1) (a :: as) (c :: cs) (t :: ts) = (a, ⟨c, t⟩) :: zipStats n as cs ts := by
  simp [zipStats, zip3]

/-- The inner loop builds exactly the zipped slice, appended to the
accumulator, whenever the flat arrays are long enough, the slice addresses
are distinct, and they are fresh for the accumulator. -/
theorem buildGroup_eq :
    ∀ (n : Nat) (addrs : List String) (comps tots : List Nat)
      (acc : List (String × AttestationStat)),
      n ≤ addrs.length → n ≤ comps.length → n ≤ tots.length →
      (addrs.take n).Nodup →
      (∀ x ∈ addrs.take n, x ∉ recKeys acc) →
      buildGroup n addrs comps tots acc = acc ++ zipStats n addrs comps tots := by
  intro n
  induction n with
  | zero => intro addrs comps tots acc _ _ _ _ _; simp [buildGroup, zipStats, zip3]
  | succ m ih =>
    intro addrs comps tots acc ha hc ht hnd hfresh
    cases addrs with
    | nil => simp at ha
    | cons a as =>
      cases comps with
      | nil => simp at hc
      | cons c cs =>
        cases tots with
        | nil => simp at ht
        | cons t ts =>
          have hafresh : a ∉ recKeys acc := hfresh a (by simp)
          have hstep : recSet a (⟨c, t⟩ : AttestationStat) acc = acc ++ [(a, ⟨c, t⟩)] :=
            recSet_of_notMem a _ acc hafresh
          have hnd2 : (as.take m).Nodup := by
            simp only [List.take_succ_cons, List.nodup_cons] at hnd
            exact hnd.2
          have hanotin : a ∉ as.take m := by
            simp only [List.take_succ_cons, List.nodup_cons] at hnd
            exact hnd.1
          have hfresh2 : ∀ x ∈ as.take m, x ∉ recKeys (acc ++ [(a, (⟨c, t⟩ : AttestationStat))]) := by
            intro x hx hmem
            simp only [recKeys, List.map_append, List.mem_append, List.map_cons,
              List.mem_cons] at hmem
            rcases hmem with hmem | hmem
            · exact hfresh x (by simp [hx]) hmem
            · simp at hmem
              exact hanotin (hmem ▸ hx)
          calc buildGroup (m + 1) (a :: as) (c :: cs) (t :: ts) acc
              = buildGroup m as cs ts (acc ++ [(a, ⟨c, t⟩)]) := by
                simp [buildGroup, hstep]
            _ = (acc ++ [(a, ⟨c, t⟩)]) ++ zipStats m as cs ts :=
                ih as cs ts _ (by simpa using ha) (by simpa using hc) (by simpa using ht)
                  hnd2 hfresh2
            _ = acc ++ zipStats (m + 1) (a :: as) (c :: cs) (t :: ts) := by
                simp [zipStats_succ_cons]

/-- A `getD` read within bounds is a member of the list. -/
theorem getD_mem_of_lt {α : Type} :
    ∀ (l : List α) (i : Nat) (d : α), i < l.length → l.getD i d ∈ l := by
  intro l
  induction l with
  | nil => intro i d h; simp at h
  | cons a l ih =>
    intro i d h
    cases i with
    | zero => simp [List.getD_cons_zero]
    | succ j =>
      have hj : j < l.length := by simp at h; omega
      simp only [List.getD_cons_succ, List.mem_cons]
      exact Or.inr (ih j d hj)

/-- Sum of a prefix one longer: add the entry at the split point. -/
theorem sum_take_succ_getD :
    ∀ (l : List Nat) (i : Nat), i < l.length →
      (l.take (i + 1)).sum = (l.take i).sum + l.getD i 0 := by
  intro l
  induction l with
  | nil => intro i h; simp at h
  | cons a l ih =>
    intro i h
    cases i with
    | zero => simp
    | succ j =>
      have hj : j < l.length := by simp at h; omega
      simp only [List.take_succ_cons, List.sum_cons, List.getD_cons_succ, ih j hj]
      omega

/-- Keys produced by the outer loop come from the accumulator or from the
identifier list. -/
theorem lookupIdentifiersGo_keys :
    ∀ (ids : List String) (ms : List Nat) (addrs : List String) (comps tots : List Nat)
      (acc : List (String × List (String × AttestationStat))),
      ∀ x ∈ recKeys (lookupIdentifiersGo ids ms addrs comps tots acc),
        x ∈ recKeys acc ∨ x ∈ ids := by
  intro ids
  induction ids with
  | nil => intro ms addrs comps tots acc x hx; exact Or.inl hx
  | cons p ids ih =>
    intro ms addrs comps tots acc x hx
    cases ms with
    | nil => exact Or.inl hx
    | cons n ms =>
      by_cases hn : n = 0
      · simp only [lookupIdentifiersGo, if_pos hn] at hx
        rcases ih ms addrs comps tots acc x hx with h | h
        · exact Or.inl h
        · exact Or.inr (List.mem_cons_of_mem _ h)
      · simp only [lookupIdentifiersGo, if_neg hn] at hx
        rcases ih ms (addrs.drop n) (comps.drop n) (tots.drop n)
            (recSet p (buildGroup n addrs comps tots []) acc) x hx with h | h
        · rcases recKeys_recSet p _ acc x h with h2 | h2
          · exact Or.inl h2
          · exact Or.inr (h2 ▸ List.mem_cons_self _ _)
        · exact Or.inr (List.mem_cons_of_mem _ h)

/-- The outer loop only appends to an accumulator whose keys are disjoint
from the remaining (duplicate-free) identifiers. -/
theorem lookupIdentifiersGo_acc :
    ∀ (ids : List String) (ms : List Nat) (addrs : List String) (comps tots : List Nat)
      (acc : List (String × List (String × AttestationStat))),
      ids.Nodup → (∀ x ∈ ids, x ∉ recKeys acc) →
      lookupIdentifiersGo ids ms addrs comps tots acc =
        acc ++ lookupIdentifiersGo ids ms addrs comps tots [] := by
  intro ids
  induction ids with
  | nil => intro ms addrs comps tots acc _ _; simp [lookupIdentifiersGo]
  | cons p ids ih =>
    intro ms addrs comps tots acc hnd hfresh
    cases ms with
    | nil => simp [lookupIdentifiersGo]
    | cons n ms =>
      have hpids : p ∉ ids := (List.nodup_cons.mp hnd).1
      have hndt : ids.Nodup := (List.nodup_cons.mp hnd).2
      by_cases hn : n = 0
      · simp only [lookupIdentifiersGo, if_pos hn]
        exact ih ms addrs comps tots acc hndt
          (fun x hx => hfresh x (List.mem_cons_of_mem _ hx))
      · simp only [lookupIdentifiersGo, if_neg hn]
        have hpacc : p ∉ recKeys acc := hfresh p (List.mem_cons_self _ _)
        rw [recSet_of_notMem p (buildGroup n addrs comps tots []) acc hpacc]
        have hfresh2 : ∀ x ∈ ids,
            x ∉ recKeys (acc ++ [(p, buildGroup n addrs comps tots [])]) := by
          intro x hx hmem
          simp only [recKeys, List.map_append, List.mem_append, List.map_cons,
            List.mem_singleton, List.map_nil, List.mem_cons, List.not_mem_nil, or_false] at hmem
          rcases hmem with hmem | hmem
          · exact hfresh x (List.mem_cons_of_mem _ hx) hmem
          · exact hpids (hmem ▸ hx)
        rw [ih ms (addrs.drop n) (comps.drop n) (tots.drop n)
          (acc ++ [(p, buildGroup n addrs comps tots [])]) hndt hfresh2]
        have hfresh3 : ∀ x ∈ ids, x ∉ recKeys [(p, buildGroup n addrs comps tots [])] := by
          intro x hx hmem
          simp [recKeys] at hmem
          exact hpids (hmem ▸ hx)
        rw [show recSet p (buildGroup n addrs comps tots [])
            ([] : List (String × List (String × AttestationStat))) =
            [(p, buildGroup n addrs comps tots [])] from rfl]
        rw [ih ms (addrs.drop n) (comps.drop n) (tots.drop n)
          [(p, buildGroup n addrs comps tots [])] hndt hfresh3]
        simp

/-- The cursor decoding of `lookupIdentifiers`: each identifier with a
positive match count maps to the zipped slice of the flat arrays at its
cursor offset, and an identifier with zero matches is absent. -/
theorem lookupIdentifiers_spec :
    ∀ (ids : List String) (ms : List Nat) (addrs : List String) (comps tots : List Nat),
      ids.Nodup →
      ids.length = ms.length →
      ms.sum ≤ addrs.length → ms.sum ≤ comps.length → ms.sum ≤ tots.length →
      (∀ j, j < ids.length →
        ((addrs.drop ((ms.take j).sum)).take (ms.getD j 0)).Nodup) →
      ∀ i, i < ids.length →
        (ms.getD i 0 = 0 →
          recGet (ids.getD i "") (lookupIdentifiers ids ms addrs comps tots) = none) ∧
        (0 < ms.getD i 0 →
          recGet (ids.getD i "") (lookupIdentifiers ids ms addrs comps tots) =
            some (zipStats (ms.getD i 0) (addrs.drop ((ms.take i).sum))
              (comps.drop ((ms.take i).sum)) (tots.drop ((ms.take i).sum)))) := by
  intro ids
  induction ids with
  | nil => intro ms addrs comps tots _ _ _ _ _ _ i hi; simp at hi
  | cons p ids ih =>
    intro ms addrs comps tots hnd hlen hsa hsc hst hgrp i hi
    cases ms with
    | nil => simp at hlen
    | cons n ms =>
      have hpids : p ∉ ids := (List.nodup_cons.mp hnd).1
      have hndt : ids.Nodup := (List.nodup_cons.mp hnd).2
      have hlent : ids.length = ms.length := by simpa using hlen
      have hsuma : n + ms.sum ≤ addrs.length := by simpa [List.sum_cons] using hsa
      have hsumc : n + ms.sum ≤ comps.length := by simpa [List.sum_cons] using hsc
      have hsumt : n + ms.sum ≤ tots.length := by simpa [List.sum_cons] using hst
      by_cases hn : n = 0
      · subst hn
        have hstep0 : lookupIdentifiers (p :: ids) (0 :: ms) addrs comps tots =
            lookupIdentifiersGo ids ms addrs comps tots [] := by
          simp [lookupIdentifiers, lookupIdentifiersGo]
        cases i with
        | zero =>
          refine ⟨fun _ => ?_, fun hpos => by simp at hpos⟩
          simp only [List.getD_cons_zero]
          rw [hstep0]
          apply recGet_of_notMem
          intro hmem
          rcases lookupIdentifiersGo_keys ids ms addrs comps tots [] p hmem with h | h
          · simp [recKeys] at h
          · exact hpids h
        | succ j =>
          have hj : j < ids.length := by simp at hi; omega
          have hgrp2 : ∀ j2, j2 < ids.length →
              ((addrs.drop ((ms.take j2).sum)).take (ms.getD j2 0)).Nodup := by
            intro j2 hj2
            have := hgrp (j2 + 1) (by simp; omega)
            simpa [List.take_succ_cons, List.sum_cons] using this
          have hmain := ih ms addrs comps tots hndt hlent (by omega) (by omega) (by omega)
            hgrp2 j hj
          refine ⟨fun hz => ?_, fun hpos => ?_⟩
          · simp only [List.getD_cons_succ] at hz ⊢
            rw [hstep0]
            exact hmain.1 hz
          · simp only [List.getD_cons_succ, List.take_succ_cons, List.sum_cons,
              Nat.zero_add] at hpos ⊢
            rw [hstep0]
            exact hmain.2 hpos
      · have hfresh3 : ∀ x ∈ ids, x ∉ recKeys [(p, buildGroup n addrs comps tots [])] := by
          intro x hx hmem
          simp [recKeys] at hmem
          exact hpids (hmem ▸ hx)
        have hstep : lookupIdentifiers (p :: ids) (n :: ms) addrs comps tots =
            (p, buildGroup n addrs comps tots []) ::
              lookupIdentifiers ids ms (addrs.drop n) (comps.drop n) (tots.drop n) := by
          simp only [lookupIdentifiers, lookupIdentifiersGo, if_neg hn]
          rw [show recSet p (buildGroup n addrs comps tots [])
              ([] : List (String × List (String × AttestationStat))) =
              [(p, buildGroup n addrs comps tots [])] from rfl]
          rw [lookupIdentifiersGo_acc ids ms (addrs.drop n) (comps.drop n) (tots.drop n)
            [(p, buildGroup n addrs comps tots [])] hndt hfresh3]
          simp
        cases i with
        | zero =>
          refine ⟨fun hz => ?_, fun _ => ?_⟩
          · simp only [List.getD_cons_zero] at hz
            exact absurd hz hn
          · simp only [List.getD_cons_zero, List.take_zero, List.sum_nil, List.drop_zero]
            rw [hstep, recGet_cons_self]
            have hnd0 : (addrs.take n).Nodup := by
              have := hgrp 0 (by simp)
              simpa using this
            have hgb := buildGroup_eq n addrs comps tots [] (by omega) (by omega) (by omega)
              hnd0 (by simp [recKeys])
            simpa using hgb
        | succ j =>
          have hj : j < ids.length := by simp at hi; omega
          have hgrp2 : ∀ j2, j2 < ids.length →
              (((addrs.drop n).drop ((ms.take j2).sum)).take (ms.getD j2 0)).Nodup := by
            intro j2 hj2
            have := hgrp (j2 + 1) (by simp; omega)
            simpa [List.take_succ_cons, List.sum_cons, List.drop_drop, Nat.add_comm]
              using this
          have hmain := ih ms (addrs.drop n) (comps.drop n) (tots.drop n) hndt hlent
            (by simp [List.length_drop]; omega) (by simp [List.length_drop]; omega)
            (by simp [List.length_drop]; omega) hgrp2 j hj
          have hne : ids.getD j "" ≠ p := fun he => hpids (he ▸ getD_mem_of_lt ids j "" hj)
          refine ⟨fun hz => ?_, fun hpos => ?_⟩
          · simp only [List.getD_cons_succ] at hz ⊢
            rw [hstep, recGet_cons_ne _ p _ _ (Ne.symm hne)]
            exact hmain.1 hz
          · simp only [List.getD_cons_succ] at hpos ⊢
            rw [hstep, recGet_cons_ne _ p _ _ (Ne.symm hne)]
            have := hmain.2 hpos
            simpa [List.take_succ_cons, List.sum_cons, List.drop_drop, Nat.add_comm]
              using this

/-- C7: for a well-formed chain response (match counts summing within the
flat array lengths, duplicate-free identifiers, and duplicate-free addresses
within the slice of each identifier), `lookupIdentifiers` decodes by a single
running cursor: the identifier at position `i` with match count `m > 0` maps
to exactly the `m` addresses of the flat slice starting at the sum of the
previous match counts (with their completed/total stats), and an identifier
with match count 0 is absent from the result. -/
theorem lookupIdentifiers_cursor (ids : List String) (ms : List Nat)
    (addrs : List String) (comps tots : List Nat)
    (hnd : ids.Nodup) (hlen : ids.length = ms.length)
    (hsa : ms.sum ≤ addrs.length) (hsc : ms.sum ≤ comps.length) (hst : ms.sum ≤ tots.length)
    (hgrp : ∀ j, j < ids.length →
      ((addrs.drop ((ms.take j).sum)).take (ms.getD j 0)).Nodup) :
    ∀ i, i < ids.length →
      (ms.getD i 0 = 0 →
        recGet (ids.getD i "") (lookupIdentifiers ids ms addrs comps tots) = none) ∧
      (0 < ms.getD i 0 → ∃ g,
        recGet (ids.getD i "") (lookupIdentifiers ids ms addrs comps tots) = some g ∧
        g.length = ms.getD i 0 ∧
        recKeys g = (addrs.drop ((ms.take i).sum)).take (ms.getD i 0) ∧
        g = zipStats (ms.getD i 0) (addrs.drop ((ms.take i).sum))
          (comps.drop ((ms.take i).sum)) (tots.drop ((ms.take i).sum))) := by
  intro i hi
  have hmain := lookupIdentifiers_spec ids ms addrs comps tots hnd hlen hsa hsc hst hgrp i hi
  refine ⟨hmain.1, fun hpos => ?_⟩
  have hilen : i < ms.length := by omega
  have hsum1 : (ms.take (i + 1)).sum = (ms.take i).sum + ms.getD i 0 :=
    sum_take_succ_getD ms i hilen
  have hsum2 : (ms.take (i + 1)).sum ≤ ms.sum := by
    have h3 : (ms.take (i + 1)).sum + (ms.drop (i + 1)).sum = ms.sum := by
      rw [← List.sum_append, List.take_append_drop]
    omega
  have hb1 : ms.getD i 0 ≤ (addrs.drop ((ms.take i).sum)).length := by
    rw [List.length_drop]; omega
  have hb2 : ms.getD i 0 ≤ (comps.drop ((ms.take i).sum)).length := by
    rw [List.length_drop]; omega
  have hb3 : ms.getD i 0 ≤ (tots.drop ((ms.take i).sum)).length := by
    rw [List.length_drop]; omega
  exact ⟨_, hmain.2 hpos, zipStats_length _ _ _ _ hb1 hb2 hb3,
    zipStats_keys _ _ _ _ hb1 hb2 hb3, rfl⟩

/-- Witness for C7, the scenario of the spec: id1 with two matches, id2 with
zero: id1 maps to exactly its two cursor addresses and id2 is absent. -/
theorem lookupIdentifiers_cursor_witness :
    recGet "id2" ( lookupIdentifiers ["id1", "id2"] [2, 0] ["0xA", "0xB"] [1, 0] [3, 1]) =
      none ∧
    (∃ g, recGet "id1" ( lookupIdentifiers ["id1", "id2"] [2, 0] ["0xA", "0xB"] [1, 0] [3, 1]) =
      some g ∧
      g.length = 2 ∧
      recKeys g = ["0xA", "0xB"] ∧
      g = zipStats 2 ["0xA", "0xB"] [1, 0] [3, 1]) := by
  have h := lookupIdentifiers_cursor ["id1", "id2"] [2, 0] ["0xA", "0xB"] [1, 0] [3, 1]
    (by decide) (by decide) (by decide) (by decide) (by decide) (by decide)
  exact ⟨(h 1 (by decide)).1 (by decide), (h 0 (by decide)).2 (by decide)⟩

end CeloAttestations
